import Mathlib

/-!
Verification of the stream-building and triple-diff engine of
`wikidata-history-analyzer` (files `src/wikidated/wikidated_dataset.py` and
`src/wikidated/wikidata/wikidata_rdf_converter.py`).

The Python source is shallowly embedded: Python `str` is `String` (with
character-level operations carried out on `String.data : List Char`, which is
exactly Python's view of a string as a sequence of characters); Python `set`
of triples is a duplicate-free `List` under the custom triple equivalence,
built by first-occurrence insertion exactly as `set(iterable)` does; code that
can raise returns `Option`/`Except`.
-/

/-- Entity metadata (`WikidataEntityMeta`): page identity of one entity. -/
structure WikidataEntityMeta where
  page_id : Nat
  title : String
deriving DecidableEq

/-- Revision metadata: revision id, timestamp and content-model tag of one
revision (the `revision` field of `WikidataRevisionBase`). -/
structure WikidataRevisionMeta where
  revision_id : Nat
  timestamp : Nat
  wikibase_model : String
deriving DecidableEq

/-- `WikidataRawRevision`: entity reference, revision metadata and the raw
text payload (absent text is `none`). -/
structure WikidataRawRevision where
  entity : WikidataEntityMeta
  revision : WikidataRevisionMeta
  text : Option String
deriving DecidableEq

/-- `WikidataRdfTriple`: one subject-predicate-object statement
(`wikidata_rdf_converter.py`, lines 67-70). -/
structure WikidataRdfTriple where
  subject : String
  predicate : String
  object_ : String
deriving DecidableEq

/-- `self.object_[:2] == "_:"`: the object value starts with the reserved
2-character blank-node marker (`wikidata_rdf_converter.py`, lines 86, 96). -/
def isBlankObj (t : WikidataRdfTriple) : Bool :=
  t.object_.take 2 == "_:"

/-- `WikidataRdfTriple.__eq__` (`wikidata_rdf_converter.py`, lines 83-93):
if both object values start with `"_:"`, compare only subject and predicate,
otherwise compare all three components. -/
def tripleEq (a b : WikidataRdfTriple) : Bool :=
  if isBlankObj a && isBlankObj b then
    a.subject == b.subject && a.predicate == b.predicate
  else
    a.subject == b.subject && a.predicate == b.predicate && a.object_ == b.object_

/-- `WikidataRdfTriple.__hash__` (`wikidata_rdf_converter.py`, lines 95-99):
the tuple that Python's `hash` is applied to.  Hash equality of two triples is
modelled as equality of these key tuples. -/
def hashKey (t : WikidataRdfTriple) : String × String × String :=
  if isBlankObj t then (t.subject, t.predicate, "_:")
  else (t.subject, t.predicate, t.object_)

/-- `WikidataRdfRevision`: a revision together with its converted triples. -/
structure WikidataRdfRevision where
  entity : WikidataEntityMeta
  revision : WikidataRevisionMeta
  triples : List WikidataRdfTriple
deriving DecidableEq

/-- The external RDF converter interface: `convert(raw revision)` either
returns a `WikidataRdfRevision` or raises a `WikidataRdfConversionError`
(modelled as `Except` with the error reason). -/
abbrev RdfConverter := WikidataRawRevision → Except String WikidataRdfRevision

/-- `WikidatedRevision`: revision plus sorted triple deletions/additions
(`wikidated_dataset.py`, lines 44-46). -/
structure WikidatedRevision where
  entity : WikidataEntityMeta
  revision : WikidataRevisionMeta
  triple_deletions : List WikidataRdfTriple
  triple_additions : List WikidataRdfTriple
deriving DecidableEq

/-- Python `t in s` for a set of triples: membership under `tripleEq`. -/
def memTriple (t : WikidataRdfTriple) (s : List WikidataRdfTriple) : Bool :=
  s.any fun u => tripleEq u t

/-- Adding one element to a Python set: kept only if no equal element is
already present (first occurrence is the retained representative). -/
def setInsert (s : List WikidataRdfTriple) (t : WikidataRdfTriple) :
    List WikidataRdfTriple :=
  if memTriple t s then s else s ++ [t]

/-- Python `set(triples)` (`wikidated_dataset.py`, line 291): deduplicate a
list under `tripleEq`, keeping first occurrences in order. -/
def setOfList (l : List WikidataRdfTriple) : List WikidataRdfTriple :=
  l.foldl setInsert []

/-- Python set difference `a - b` on triple sets (`wikidated_dataset.py`,
lines 292-293): the elements of `a` that have no `tripleEq`-equal element in
`b`. -/
def setDiff (a b : List WikidataRdfTriple) : List WikidataRdfTriple :=
  a.filter fun t => !(memTriple t b)

/-- Python `<=` on `WikidataRdfTriple` named tuples: lexicographic comparison
of the `(subject, predicate, object_)` tuples by string order. -/
def tripleLe (a b : WikidataRdfTriple) : Bool :=
  if a.subject = b.subject then
    if a.predicate = b.predicate then decide (a.object_ ≤ b.object_)
    else decide (a.predicate < b.predicate)
  else decide (a.subject < b.subject)

/-- Insert into a list sorted by `tripleLe`, before the first element that is
not strictly smaller. -/
def insertLe (x : WikidataRdfTriple) : List WikidataRdfTriple → List WikidataRdfTriple
  | [] => [x]
  | y :: ys => if tripleLe x y then x :: y :: ys else y :: insertLe x ys

/-- Python `sorted(...)` on lists of triples (`wikidated_dataset.py`, lines
292-293), realised as insertion sort by `tripleLe`.  Since `tripleLe a b` and
`tripleLe b a` together force `a = b`, every sort by this order yields the
same result as Python's. -/
def sortTriples : List WikidataRdfTriple → List WikidataRdfTriple
  | [] => []
  | x :: xs => insertLe x (sortTriples xs)

/-- Loop body state-passing core of
`_WikidatedEntityStreamsPartial._iter_wikidated_revisions`
(`wikidated_dataset.py`, lines 276-301): `state` is the running active triple
set; a conversion error skips the revision leaving `state` unchanged. -/
def iterGo (c : RdfConverter) (state : List WikidataRdfTriple) :
    List WikidataRawRevision → List WikidatedRevision
  | [] => []
  | rev :: rest =>
    match c rev with
    | Except.error _ => iterGo c state rest
    | Except.ok rdf_revision =>
      let triples_set := setOfList rdf_revision.triples
      { entity := rev.entity
        revision := rev.revision
        triple_deletions := sortTriples (setDiff state triples_set)
        triple_additions := sortTriples (setDiff triples_set state) }
        :: iterGo c triples_set rest

/-- `_WikidatedEntityStreamsPartial._iter_wikidated_revisions`
(`wikidated_dataset.py`, lines 276-301): the per-entity diff engine, starting
from the empty active state. -/
def iter_wikidated_revisions (revisions : List WikidataRawRevision)
    (rdf_converter : RdfConverter) : List WikidatedRevision :=
  iterGo rdf_converter [] revisions

/-- The active state after processing a list of revisions starting from
`st`: each successful conversion replaces the state by its deduplicated
triple set, each failure leaves it unchanged (`state = triples_set` on
line 294 of `wikidated_dataset.py`). -/
def stateFrom (c : RdfConverter) (st : List WikidataRdfTriple)
    (rs : List WikidataRawRevision) : List WikidataRdfTriple :=
  rs.foldl
    (fun s r =>
      match c r with
      | Except.ok rdf_revision => setOfList rdf_revision.triples
      | Except.error _ => s)
    st

/-- The active state of the diff engine after a list of revisions, starting
empty. -/
def stateAfter (c : RdfConverter) (rs : List WikidataRawRevision) :
    List WikidataRdfTriple :=
  stateFrom c [] rs

/-- `WikidatedEntityStreams._entity_file_name_from_page_id`
(`wikidated_dataset.py`, lines 205-207): `f"{entity_page_id}.jsonl"`. -/
def entity_file_name_from_page_id (entity_page_id : Nat) : String :=
  Nat.repr entity_page_id ++ ".jsonl"

/-- Python's `int(...)` applied to a string of decimal digits: `none` when the
string is empty or contains a non-digit character (in which case `int` raises
`ValueError`); other accepted `int` input forms (signs, whitespace,
underscores) never arise from the file-name encoding and are not modelled. -/
def pyInt (s : String) : Option Nat :=
  if s.data ≠ [] ∧ s.data.all Char.isDigit then
    some (s.data.foldl (fun a c => a * 10 + (c.toNat - 48)) 0)
  else none

/-- `WikidatedEntityStreams._entity_page_id_from_file_name`
(`wikidated_dataset.py`, lines 209-211):
`int(entity_file_name.name[: -len(".jsonl")])`. -/
def entity_page_id_from_file_name (entity_file_name : String) : Option Nat :=
  pyInt ⟨entity_file_name.data.take (entity_file_name.data.length - 6)⟩

/-- `itertools.groupby(revisions, lambda revision: revision.entity)`
(`wikidated_dataset.py`, lines 268-274): group consecutive revisions with
equal `entity` into `(entity, group)` runs, preserving order. -/
def groupByEntity : List WikidataRawRevision →
    List (WikidataEntityMeta × List WikidataRawRevision)
  | [] => []
  | r :: rs =>
    match groupByEntity rs with
    | [] => [(r.entity, [r])]
    | (k, g) :: gs =>
      if r.entity = k then (k, r :: g) :: gs
      else (r.entity, [r]) :: (k, g) :: gs

/-- A 7z archive as written by the builder: member files, each a name plus
the sequence of serialized `WikidatedRevision` lines it contains. -/
structure ArchiveModel where
  members : List (String × List WikidatedRevision)
deriving DecidableEq

/-- One entity group's contribution to the partition archive
(`wikidated_dataset.py`, lines 240-264): if the entity's diff sequence is
empty (first `next(...)` raises `StopIteration`), no member file is written;
otherwise one member named by the page id holding all diff revisions. -/
def memberOfGroup (c : RdfConverter)
    (g : WikidataEntityMeta × List WikidataRawRevision) :
    Option (String × List WikidatedRevision) :=
  match iter_wikidated_revisions g.2 c with
  | [] => none
  | ds => some (entity_file_name_from_page_id g.1.page_id, ds)

/-- The archive content written by
`_WikidatedEntityStreamsPartial.build` for one partition's raw revisions
(`wikidated_dataset.py`, lines 236-266). -/
def buildArchive (revs : List WikidataRawRevision) (c : RdfConverter) :
    ArchiveModel :=
  ⟨(groupByEntity revs).filterMap (memberOfGroup c)⟩

/-- The diff revisions yielded by `_WikidatedEntityStreamsPartial.build` while
writing (`wikidated_dataset.py`, lines 260-264): each written line is yielded
in order. -/
def buildYields (revs : List WikidataRawRevision) (c : RdfConverter) :
    List WikidatedRevision :=
  ((groupByEntity revs).filterMap (memberOfGroup c)).flatMap (·.2)

/-- `_WikidatedEntityStreamsPartial.build` (`wikidated_dataset.py`, lines
231-266) at the level of the final-named file: input is the current content
under the final path (`none` when `self._path.exists()` is false), output is
the content under the final path afterwards together with the yielded
sequence.  An existing file makes the call return `iter([])` without any
write (lines 232-234). -/
def buildEntityStreams (fs : Option ArchiveModel)
    (revs : List WikidataRawRevision) (c : RdfConverter) :
    Option ArchiveModel × List WikidatedRevision :=
  match fs with
  | some a => (some a, [])
  | none => (some (buildArchive revs c), buildYields revs c)

/-- A file-system operation performed by `_WikidatedEntityStreamsPartial.build`
on the archive store: writing one member file into the temporary archive
(`entity_streams_archive.write(...)`, lines 257-263), or the final
`tmp_path.rename(self._path)` (line 266). -/
inductive FsOp where
  | writeMember (m : String × List WikidatedRevision)
  | renameTmpToFinal
deriving DecidableEq

/-- The dataset directory's file-system state relevant to one partition: the
content of the temporary archive (if present) and of the final-named archive
(if present). -/
structure FsState where
  tmp : Option (List (String × List WikidatedRevision))
  fin : Option ArchiveModel
deriving DecidableEq

/-- Effect of one file-system operation: a member write appends to the
temporary archive; the rename moves the temporary content to the final
name. -/
def applyOp (fs : FsState) (op : FsOp) : FsState :=
  match op with
  | FsOp.writeMember m => { fs with tmp := some ((fs.tmp.getD []) ++ [m]) }
  | FsOp.renameTmpToFinal => { tmp := none, fin := some ⟨fs.tmp.getD []⟩ }

/-- Run a sequence of file-system operations. -/
def applyOps (fs : FsState) (ops : List FsOp) : FsState :=
  ops.foldl applyOp fs

/-- File system with neither temporary nor final archive present. -/
def initFs : FsState := { tmp := none, fin := none }

/-- The ordered file-system operations performed by one execution of
`_WikidatedEntityStreamsPartial.build` (`wikidated_dataset.py`, lines
231-266): nothing if the final archive already exists; otherwise all member
writes (to the temporary path) followed by the single rename. -/
def buildTrace (fin_exists : Bool) (revs : List WikidataRawRevision)
    (c : RdfConverter) : List FsOp :=
  if fin_exists then []
  else ((groupByEntity revs).filterMap (memberOfGroup c)).map FsOp.writeMember
    ++ [FsOp.renameTmpToFinal]

/-- Modelled from the spec: `_WikidataEntityStreamsMerged.build`
(`wikidated_dataset.py`, lines 313-314) is `raise NotImplementedError()`, so
the entity-level merge is missing from the source.  Spec section 4.5: the
merge is a straight concatenation of the partition archives' member files,
and a key collision "must be treated as a fatal integrity error, not silently
overwritten". -/
def mergeEntityStreams (parts : List ArchiveModel) :
    Except String ArchiveModel :=
  let members := parts.flatMap (·.members)
  if (members.map Prod.fst).Nodup then Except.ok ⟨members⟩
  else Except.error "duplicate entity key across partition archives"

/-- `WIKIDATA_RDF_PREFIXES` (`wikidata_rdf_converter.py`, lines 30-63): the
registered ontology-URI prefixes and their shortcodes, in source order. -/
def WIKIDATA_RDF_PREFIXES : List (String × String) :=
  [("http://creativecommons.org/ns#", "cc"),
   ("http://purl.org/dc/terms/", "dct"),
   ("http://schema.org/", "schema"),
   ("http://wikiba.se/ontology#", "wikibase"),
   ("http://www.bigdata.com/queryHints#", "hint"),
   ("http://www.bigdata.com/rdf#", "bd"),
   ("http://www.opengis.net/ont/geosparql#", "geo"),
   ("http://www.w3.org/1999/02/22-rdf-syntax-ns#", "rdf"),
   ("http://www.w3.org/2000/01/rdf-schema#", "rdfs"),
   ("http://www.w3.org/2001/XMLSchema#", "xsd"),
   ("http://www.w3.org/2002/07/owl#", "owl"),
   ("http://www.w3.org/2004/02/skos/core#", "skos"),
   ("http://www.w3.org/ns/lemon/ontolex#", "ontolex"),
   ("http://www.w3.org/ns/prov#", "prov"),
   ("http://www.wikidata.org/entity/", "wd"),
   ("http://www.wikidata.org/entity/statement/", "wds"),
   ("http://www.wikidata.org/prop/", "p"),
   ("http://www.wikidata.org/prop/direct-normalized/", "wdtn"),
   ("http://www.wikidata.org/prop/direct/", "wdt"),
   ("http://www.wikidata.org/prop/novalue/", "wdno"),
   ("http://www.wikidata.org/prop/qualifier/", "pq"),
   ("http://www.wikidata.org/prop/qualifier/value-normalized/", "pqn"),
   ("http://www.wikidata.org/prop/qualifier/value/", "pqv"),
   ("http://www.wikidata.org/prop/reference/", "pr"),
   ("http://www.wikidata.org/prop/reference/value-normalized/", "prn"),
   ("http://www.wikidata.org/prop/reference/value/", "prv"),
   ("http://www.wikidata.org/prop/statement/", "ps"),
   ("http://www.wikidata.org/prop/statement/value-normalized/", "psn"),
   ("http://www.wikidata.org/prop/statement/value/", "psv"),
   ("http://www.wikidata.org/reference/", "wdref"),
   ("http://www.wikidata.org/value/", "wdv"),
   ("http://www.wikidata.org/wiki/Special:EntityData/", "wdata")]

/-- The registered prefix URLs (the keys of `WIKIDATA_RDF_PREFIXES`, from
which `WIKIDATA_RDF_PREFIXES_TRIE` is built on line 64 of
`wikidata_rdf_converter.py`). -/
def wikidataRdfKeyUrls : List String :=
  WIKIDATA_RDF_PREFIXES.map Prod.fst

/-- `WIKIDATA_RDF_PREFIXES_TRIE.prefixes(s)`: all registered prefix URLs that
are prefixes of `s`.  The key list is lexicographically sorted, so among the
matching keys (which form a chain under the prefix order) the longest one is
last, as the source comment on line 311 relies on. -/
def triePrefixUrls (s : List Char) : List String :=
  wikidataRdfKeyUrls.filter fun p => p.data.isPrefixOf s

/-- `WIKIDATA_RDF_PREFIXES[prefix_uri]` (`wikidata_rdf_converter.py`,
line 312): dictionary lookup of the shortcode of a registered prefix URL. -/
def shortcodeOf (key_url : String) : String :=
  (WIKIDATA_RDF_PREFIXES.lookup key_url).getD ""

/-- `WikidataRdfConverter._prefix_ntriples_uri` (`wikidata_rdf_converter.py`,
lines 303-314).  `uri[0]` raises `IndexError` on the empty string, modelled
as `none`.  A string not starting with `"<"` is returned unchanged; otherwise
the angle brackets are stripped, the longest registered prefix URL of the
contained URI is replaced by `shortcode + ":"`, and if no registered prefix
matches the original (still bracketed) input is returned unchanged. -/
def prefix_ntriples_uri (uri : String) : Option String :=
  match uri.data with
  | [] => none
  | c :: _ =>
    if c ≠ '<' then some uri
    else
      match (triePrefixUrls ((uri.data.drop 1).dropLast)).getLast? with
      | some key_url =>
        some (shortcodeOf key_url ++ ":" ++
          ⟨(uri.data.drop (key_url.data.length + 1)).dropLast⟩)
      | none => some uri

/-- Sample triple `A` for concrete test scenarios. -/
def tripleA : WikidataRdfTriple := ⟨"wd:Q42", "wdt:P31", "wd:Q5"⟩

/-- Sample triple `B` for concrete test scenarios. -/
def tripleB : WikidataRdfTriple := ⟨"wd:Q42", "wdt:P21", "wd:Q6581097"⟩

/-- Sample triple `C` for concrete test scenarios. -/
def tripleC : WikidataRdfTriple := ⟨"wd:Q42", "wdt:P106", "wd:Q36180"⟩

/-- Sample entity for concrete test scenarios. -/
def sampleEntity : WikidataEntityMeta := ⟨42, "Q42"⟩

/-- Sample raw revision number `n` of the sample entity. -/
def sampleRev (n : Nat) : WikidataRawRevision :=
  ⟨sampleEntity, ⟨n, n, "wikibase-item"⟩, some "{}"⟩

/-- Sample converter that always succeeds, realising the spec's concrete
scenario: revision 1 yields `{A,B}`, revision 2 yields `{A,B,C}`, any other
revision yields `{B,C}`. -/
def convOk : RdfConverter := fun r =>
  Except.ok ⟨r.entity, r.revision,
    if r.revision.revision_id = 1 then [tripleA, tripleB]
    else if r.revision.revision_id = 2 then [tripleA, tripleB, tripleC]
    else [tripleB, tripleC]⟩

/-- Sample converter that fails on revision 2 and otherwise behaves like
`convOk`. -/
def convFailSecond : RdfConverter := fun r =>
  if r.revision.revision_id = 2 then Except.error "conversion failed"
  else convOk r

/-- Sample converter that always fails. -/
def convFail : RdfConverter := fun _ => Except.error "conversion failed"

/-- The three sample revisions of the spec's concrete scenario. -/
def sampleRevs3 : List WikidataRawRevision :=
  [sampleRev 1, sampleRev 2, sampleRev 3]

/-- Sample one-member partition archive for the entity with the given page
id. -/
def sampleArchN (pid : Nat) : ArchiveModel :=
  ⟨[(entity_file_name_from_page_id pid, [])]⟩

/-- Two sample partitions with disjoint page-id ranges `[0,99]` and
`[100,199]`. -/
def samplePartsDisjoint : List ((Nat × Nat) × ArchiveModel) :=
  [((0, 99), sampleArchN 5), ((100, 199), sampleArchN 150)]

/-- Two sample partitions carrying the same entity key. -/
def samplePartsOverlap : List ((Nat × Nat) × ArchiveModel) :=
  [((0, 99), sampleArchN 5), ((0, 99), sampleArchN 5)]

/-- Characterization of `tripleEq`. -/
theorem tripleEq_iff (a b : WikidataRdfTriple) :
    tripleEq a b = true ↔
      a.subject = b.subject ∧ a.predicate = b.predicate ∧
        ((isBlankObj a = true ∧ isBlankObj b = true) ∨ a.object_ = b.object_) := by
  unfold tripleEq
  cases h1 : isBlankObj a <;> cases h2 : isBlankObj b <;>
    simp [h1, h2, and_assoc]

/-- `isBlankObj` depends only on the object value. -/
theorem isBlankObj_congr {a b : WikidataRdfTriple} (h : a.object_ = b.object_) :
    isBlankObj a = isBlankObj b := by
  simp [isBlankObj, h]

/-- `tripleEq` is reflexive. -/
theorem tripleEq_refl (a : WikidataRdfTriple) : tripleEq a a = true := by
  rw [tripleEq_iff]
  exact ⟨rfl, rfl, Or.inr rfl⟩

/-- `tripleEq` is symmetric. -/
theorem tripleEq_symm {a b : WikidataRdfTriple} (h : tripleEq a b = true) :
    tripleEq b a = true := by
  rw [tripleEq_iff] at *
  obtain ⟨hs, hp, ho⟩ := h
  refine ⟨hs.symm, hp.symm, ?_⟩
  rcases ho with ⟨ha, hb⟩ | ho
  · exact Or.inl ⟨hb, ha⟩
  · exact Or.inr ho.symm

/-- `tripleEq` is transitive. -/
theorem tripleEq_trans {a b c : WikidataRdfTriple} (hab : tripleEq a b = true)
    (hbc : tripleEq b c = true) : tripleEq a c = true := by
  rw [tripleEq_iff] at *
  obtain ⟨hs1, hp1, ho1⟩ := hab
  obtain ⟨hs2, hp2, ho2⟩ := hbc
  refine ⟨hs1.trans hs2, hp1.trans hp2, ?_⟩
  rcases ho1 with ⟨ha, hb⟩ | ho1
  · rcases ho2 with ⟨_, hc⟩ | ho2
    · exact Or.inl ⟨ha, hc⟩
    · exact Or.inl ⟨ha, (isBlankObj_congr ho2) ▸ hb⟩
  · rcases ho2 with ⟨hb, hc⟩ | ho2
    · exact Or.inl ⟨(isBlankObj_congr ho1) ▸ hb, hc⟩
    · exact Or.inr (ho1.trans ho2)

/-- Unfolding lemma for `memTriple`. -/
theorem memTriple_true_iff (t : WikidataRdfTriple)
    (s : List WikidataRdfTriple) :
    memTriple t s = true ↔ ∃ x ∈ s, tripleEq x t = true := by
  simp [memTriple, List.any_eq_true]

/-- Membership under `tripleEq` only depends on the equivalence class of the
element. -/
theorem memTriple_congr {u t : WikidataRdfTriple} (h : tripleEq u t = true)
    (s : List WikidataRdfTriple) : memTriple u s = memTriple t s := by
  apply Bool.eq_iff_iff.mpr
  simp only [memTriple, List.any_eq_true]
  constructor
  · rintro ⟨x, hx, he⟩; exact ⟨x, hx, tripleEq_trans he h⟩
  · rintro ⟨x, hx, he⟩; exact ⟨x, hx, tripleEq_trans he (tripleEq_symm h)⟩

/-- Membership distributes over append. -/
theorem memTriple_append (t : WikidataRdfTriple)
    (a b : List WikidataRdfTriple) :
    memTriple t (a ++ b) = (memTriple t a || memTriple t b) := by
  simp [memTriple]

/-- Membership after a set insertion. -/
theorem memTriple_setInsert (t u : WikidataRdfTriple)
    (s : List WikidataRdfTriple) :
    memTriple t (setInsert s u) = (memTriple t s || tripleEq u t) := by
  unfold setInsert
  cases h : memTriple u s
  · simp only [h, Bool.false_eq_true, if_false, memTriple_append]
    simp [memTriple]
  · simp only [h, if_true]
    cases he : tripleEq u t
    · simp
    · have h2 : memTriple t s = true := (memTriple_congr he s) ▸ h
      simp [h2]

/-- Membership in a Python set built from a list is membership in the
list. -/
theorem memTriple_foldl_setInsert (t : WikidataRdfTriple) :
    ∀ (l : List WikidataRdfTriple) (acc : List WikidataRdfTriple),
      memTriple t (l.foldl setInsert acc) = (memTriple t acc || memTriple t l)
  | [], acc => by simp [memTriple]
  | x :: l, acc => by
    simp only [List.foldl_cons]
    rw [memTriple_foldl_setInsert t l (setInsert acc x), memTriple_setInsert]
    simp [memTriple, Bool.or_assoc]

/-- `set(l)` has the same members as `l`. -/
theorem memTriple_setOfList (t : WikidataRdfTriple)
    (l : List WikidataRdfTriple) : memTriple t (setOfList l) = memTriple t l := by
  rw [setOfList, memTriple_foldl_setInsert]
  simp [memTriple]

/-- Membership in a set difference. -/
theorem memTriple_setDiff (t : WikidataRdfTriple)
    (a b : List WikidataRdfTriple) :
    memTriple t (setDiff a b) = (memTriple t a && !memTriple t b) := by
  apply Bool.eq_iff_iff.mpr
  rw [Bool.and_eq_true, Bool.not_eq_true', memTriple_true_iff,
    memTriple_true_iff]
  constructor
  · rintro ⟨x, hx, he⟩
    rw [setDiff, List.mem_filter, Bool.not_eq_true'] at hx
    obtain ⟨hxa, hnb⟩ := hx
    exact ⟨⟨x, hxa, he⟩, (memTriple_congr he b) ▸ hnb⟩
  · rintro ⟨⟨x, hxa, he⟩, hnb⟩
    refine ⟨x, ?_, he⟩
    rw [setDiff, List.mem_filter, Bool.not_eq_true']
    exact ⟨hxa, (memTriple_congr he b).trans hnb⟩

/-- Inserting by `insertLe` is a permutation of consing. -/
theorem insertLe_perm (x : WikidataRdfTriple) :
    ∀ l : List WikidataRdfTriple, (insertLe x l).Perm (x :: l)
  | [] => List.Perm.refl _
  | y :: ys => by
    unfold insertLe
    cases h : tripleLe x y
    · simp only [Bool.false_eq_true, if_false]
      exact ((insertLe_perm x ys).cons y).trans (List.Perm.swap x y ys)
    · simp

/-- `sortTriples` is a permutation of its input. -/
theorem sortTriples_perm :
    ∀ l : List WikidataRdfTriple, (sortTriples l).Perm l
  | [] => List.Perm.refl _
  | x :: xs =>
    (insertLe_perm x (sortTriples xs)).trans ((sortTriples_perm xs).cons x)

/-- Sorting preserves membership under `tripleEq`. -/
theorem memTriple_sortTriples (t : WikidataRdfTriple)
    (l : List WikidataRdfTriple) : memTriple t (sortTriples l) = memTriple t l := by
  apply Bool.eq_iff_iff.mpr
  rw [memTriple_true_iff, memTriple_true_iff]
  constructor
  · rintro ⟨x, hx, he⟩; exact ⟨x, (sortTriples_perm l).mem_iff.mp hx, he⟩
  · rintro ⟨x, hx, he⟩; exact ⟨x, (sortTriples_perm l).mem_iff.mpr hx, he⟩

/-- `tripleLe` is total. -/
theorem tripleLe_total (a b : WikidataRdfTriple) :
    tripleLe a b = true ∨ tripleLe b a = true := by
  unfold tripleLe
  by_cases hs : a.subject = b.subject
  · by_cases hp : a.predicate = b.predicate
    · simp only [hs, hp, if_true, decide_eq_true_eq]
      exact le_total a.object_ b.object_
    · simp only [hs, hp, if_true, if_false, Ne.symm hp, decide_eq_true_eq]
      exact lt_or_gt_of_ne hp
  · simp only [hs, if_false, Ne.symm hs, decide_eq_true_eq]
    exact lt_or_gt_of_ne hs

/-- `tripleLe` is transitive. -/
theorem tripleLe_trans {a b c : WikidataRdfTriple} (hab : tripleLe a b = true)
    (hbc : tripleLe b c = true) : tripleLe a c = true := by
  unfold tripleLe at *
  by_cases hs1 : a.subject = b.subject <;> by_cases hs2 : b.subject = c.subject
  · rw [if_pos hs1] at hab
    rw [if_pos hs2] at hbc
    rw [if_pos (hs1.trans hs2)]
    by_cases hp1 : a.predicate = b.predicate <;>
      by_cases hp2 : b.predicate = c.predicate
    · rw [if_pos hp1, decide_eq_true_eq] at hab
      rw [if_pos hp2, decide_eq_true_eq] at hbc
      rw [if_pos (hp1.trans hp2), decide_eq_true_eq]
      exact hab.trans hbc
    · rw [if_pos hp1] at hab
      rw [if_neg hp2] at hbc
      rw [if_neg (hp1 ▸ hp2), decide_eq_true_eq]
      rw [decide_eq_true_eq] at hbc
      exact hp1 ▸ hbc
    · rw [if_neg hp1, decide_eq_true_eq] at hab
      rw [if_pos hp2] at hbc
      rw [if_neg (hp2 ▸ hp1), decide_eq_true_eq]
      exact hp2 ▸ hab
    · rw [if_neg hp1, decide_eq_true_eq] at hab
      rw [if_neg hp2, decide_eq_true_eq] at hbc
      have : a.predicate ≠ c.predicate := ne_of_lt (hab.trans hbc)
      rw [if_neg this, decide_eq_true_eq]
      exact hab.trans hbc
  · rw [if_pos hs1] at hab
    rw [if_neg hs2, decide_eq_true_eq] at hbc
    rw [if_neg (hs1 ▸ hs2), decide_eq_true_eq]
    exact hs1 ▸ hbc
  · rw [if_neg hs1, decide_eq_true_eq] at hab
    rw [if_pos hs2] at hbc
    rw [if_neg (hs2 ▸ hs1), decide_eq_true_eq]
    exact hs2 ▸ hab
  · rw [if_neg hs1, decide_eq_true_eq] at hab
    rw [if_neg hs2, decide_eq_true_eq] at hbc
    have : a.subject ≠ c.subject := ne_of_lt (hab.trans hbc)
    rw [if_neg this, decide_eq_true_eq]
    exact hab.trans hbc

/-- Elements of `insertLe x l` are `x` or elements of `l`. -/
theorem mem_insertLe {z x : WikidataRdfTriple} {l : List WikidataRdfTriple}
    (h : z ∈ insertLe x l) : z = x ∨ z ∈ l := by
  have := (insertLe_perm x l).mem_iff.mp h
  simpa using this

/-- `insertLe` preserves sortedness by `tripleLe`. -/
theorem pairwise_insertLe (x : WikidataRdfTriple) :
    ∀ l : List WikidataRdfTriple,
      l.Pairwise (fun a b => tripleLe a b = true) →
      (insertLe x l).Pairwise (fun a b => tripleLe a b = true)
  | [], _ => by simp [insertLe]
  | y :: ys, h => by
    obtain ⟨hy, hys⟩ := List.pairwise_cons.mp h
    unfold insertLe
    cases hle : tripleLe x y
    · simp only [Bool.false_eq_true, if_false]
      refine List.pairwise_cons.mpr ⟨?_, pairwise_insertLe x ys hys⟩
      intro z hz
      rcases mem_insertLe hz with h1 | hz
      · rcases tripleLe_total x y with hxy | hyx
        · rw [hxy] at hle; cases hle
        · rw [h1]; exact hyx
      · exact hy z hz
    · simp only [if_true]
      refine List.pairwise_cons.mpr ⟨?_, h⟩
      intro z hz
      rcases List.mem_cons.mp hz with rfl | hz
      · exact hle
      · exact tripleLe_trans hle (hy z hz)

/-- `sortTriples` output is sorted by `tripleLe`. -/
theorem sortTriples_sorted :
    ∀ l : List WikidataRdfTriple,
      (sortTriples l).Pairwise (fun a b => tripleLe a b = true)
  | [] => List.Pairwise.nil
  | x :: xs => pairwise_insertLe x (sortTriples xs) (sortTriples_sorted xs)

/-- Advancing `stateFrom` over a successfully converted revision. -/
theorem stateFrom_cons_ok {c : RdfConverter} {r : WikidataRawRevision}
    {rdf : WikidataRdfRevision} (hok : c r = Except.ok rdf)
    (st : List WikidataRdfTriple) (l : List WikidataRawRevision) :
    stateFrom c st (r :: l) = stateFrom c (setOfList rdf.triples) l := by
  simp [stateFrom, hok]

/-- Advancing `stateFrom` over a revision whose conversion fails. -/
theorem stateFrom_cons_err {c : RdfConverter} {r : WikidataRawRevision}
    {e : String} (herr : c r = Except.error e)
    (st : List WikidataRdfTriple) (l : List WikidataRawRevision) :
    stateFrom c st (r :: l) = stateFrom c st l := by
  simp [stateFrom, herr]

/-- Full characterization of the diff-engine loop on an all-successful
revision sequence, for an arbitrary initial active state. -/
theorem iterGo_spec (c : RdfConverter) :
    ∀ (rs : List WikidataRawRevision) (st : List WikidataRdfTriple),
      (∀ r ∈ rs, ∃ rdf, c r = Except.ok rdf) →
      (iterGo c st rs).length = rs.length ∧
      (∀ (i : Nat) (r : WikidataRawRevision), rs[i]? = some r →
        ∃ rdf, c r = Except.ok rdf ∧
          (iterGo c st rs)[i]? = some
            { entity := r.entity, revision := r.revision,
              triple_deletions := sortTriples
                (setDiff (stateFrom c st (rs.take i)) (setOfList rdf.triples)),
              triple_additions := sortTriples
                (setDiff (setOfList rdf.triples) (stateFrom c st (rs.take i))) } ∧
          stateFrom c st (rs.take (i + 1)) = setOfList rdf.triples)
  | [], st, _ => by
    refine ⟨rfl, ?_⟩
    intro i r hi
    simp at hi
  | r0 :: rest, st, h => by
    obtain ⟨rdf0, hok⟩ := h r0 (List.mem_cons_self r0 rest)
    have hrest : ∀ r ∈ rest, ∃ rdf, c r = Except.ok rdf := fun r hr =>
      h r (List.mem_cons_of_mem r0 hr)
    have IH := iterGo_spec c rest (setOfList rdf0.triples) hrest
    have hgo : iterGo c st (r0 :: rest) =
        { entity := r0.entity, revision := r0.revision,
          triple_deletions := sortTriples (setDiff st (setOfList rdf0.triples)),
          triple_additions := sortTriples (setDiff (setOfList rdf0.triples) st) }
          :: iterGo c (setOfList rdf0.triples) rest := by
      simp [iterGo, hok]
    refine ⟨?_, ?_⟩
    · rw [hgo, List.length_cons, IH.1, List.length_cons]
    · intro i r hi
      match i with
      | 0 =>
        rw [List.getElem?_cons_zero, Option.some_inj] at hi
        subst hi
        refine ⟨rdf0, hok, ?_, ?_⟩
        · rw [hgo, List.getElem?_cons_zero, List.take_zero]
          simp [stateFrom]
        · rw [List.take_succ_cons, List.take_zero, stateFrom_cons_ok hok]
          simp [stateFrom]
      | i + 1 =>
        rw [List.getElem?_cons_succ] at hi
        obtain ⟨rdf, h1, h2, h3⟩ := IH.2 i r hi
        refine ⟨rdf, h1, ?_, ?_⟩
        · rw [hgo, List.getElem?_cons_succ, h2, List.take_succ_cons,
            stateFrom_cons_ok hok]
        · rw [List.take_succ_cons, stateFrom_cons_ok hok]
          exact h3

/-- The diff-engine loop on an input with a failing revision at index `k`
equals the loop on the input with that revision removed, for any initial
state. -/
theorem iterGo_eraseIdx (c : RdfConverter) :
    ∀ (rs : List WikidataRawRevision) (k : Nat)
      (st : List WikidataRdfTriple) (hk : k < rs.length),
      (∃ e, c (rs.get ⟨k, hk⟩) = Except.error e) →
      iterGo c st rs = iterGo c st (rs.eraseIdx k)
  | [], k, st, hk, _ => by simp at hk
  | r :: rest, 0, st, hk, h => by
    obtain ⟨e, he⟩ := h
    simp only [List.get_eq_getElem, List.getElem_cons_zero] at he
    simp [iterGo, he, List.eraseIdx]
  | r :: rest, k + 1, st, hk, h => by
    obtain ⟨e, he⟩ := h
    simp only [List.get_eq_getElem, List.getElem_cons_succ] at he
    have hk2 : k < rest.length := by
      simpa [Nat.succ_lt_succ_iff] using hk
    have IH := fun st2 => iterGo_eraseIdx c rest k st2 hk2
      ⟨e, by simpa using he⟩
    simp only [List.eraseIdx]
    cases hc : c r
    · simp only [iterGo, hc]
      exact IH st
    · simp only [iterGo, hc]
      rw [IH _]

/-- Set difference with the empty set keeps everything. -/
theorem setDiff_nil (a : List WikidataRdfTriple) : setDiff a [] = a := by
  simp [setDiff, memTriple]

/-- Claim C1: on an entity's revision sequence whose conversions all succeed
with triple sets `T_i`, the diff engine yields exactly one `WikidatedRevision`
per revision, in input order; step `i` carries additions `T_i` minus the
running active state and deletions active state minus `T_i` (both under the
triple equivalence, each sorted by the triple order and a permutation of the
respective set difference); the active state starts empty, is set to `T_i`
after step `i`, satisfies
`active_i = (active_(i-1) ∪ additions_i) - deletions_i` as sets under the
triple equivalence, and in particular `additions_0 = T_0` and
`deletions_0 = ∅`. -/
theorem diff_engine_correct (rdf_converter : RdfConverter)
    (revisions : List WikidataRawRevision)
    (h : ∀ r ∈ revisions, ∃ rdf, rdf_converter r = Except.ok rdf) :
    (iter_wikidated_revisions revisions rdf_converter).length =
      revisions.length ∧
    (∀ (i : Nat) (r : WikidataRawRevision), revisions[i]? = some r →
      ∃ rdf, rdf_converter r = Except.ok rdf ∧
        ∃ adds dels,
          (iter_wikidated_revisions revisions rdf_converter)[i]? = some
            { entity := r.entity, revision := r.revision,
              triple_deletions := dels, triple_additions := adds } ∧
          adds.Perm (setDiff (setOfList rdf.triples)
            (stateAfter rdf_converter (revisions.take i))) ∧
          adds.Pairwise (fun a b => tripleLe a b = true) ∧
          dels.Perm (setDiff (stateAfter rdf_converter (revisions.take i))
            (setOfList rdf.triples)) ∧
          dels.Pairwise (fun a b => tripleLe a b = true) ∧
          stateAfter rdf_converter (revisions.take (i + 1)) =
            setOfList rdf.triples ∧
          (∀ t, memTriple t (stateAfter rdf_converter (revisions.take (i + 1))) =
            (memTriple t (stateAfter rdf_converter (revisions.take i) ++ adds) &&
              !(memTriple t dels)))) ∧
    (∀ r0, revisions[0]? = some r0 →
      ∃ rdf0, rdf_converter r0 = Except.ok rdf0 ∧
        (iter_wikidated_revisions revisions rdf_converter)[0]? = some
          { entity := r0.entity, revision := r0.revision,
            triple_deletions := [],
            triple_additions := sortTriples (setOfList rdf0.triples) }) := by
  obtain ⟨hlen, hidx⟩ := iterGo_spec rdf_converter revisions [] h
  refine ⟨hlen, ?_, ?_⟩
  · intro i r hi
    obtain ⟨rdf, h1, h2, h3⟩ := hidx i r hi
    refine ⟨rdf, h1,
      sortTriples (setDiff (setOfList rdf.triples)
        (stateFrom rdf_converter [] (revisions.take i))),
      sortTriples (setDiff (stateFrom rdf_converter [] (revisions.take i))
        (setOfList rdf.triples)), h2,
      sortTriples_perm _, sortTriples_sorted _,
      sortTriples_perm _, sortTriples_sorted _, h3, ?_⟩
    intro t
    rw [stateAfter, h3, stateAfter, memTriple_append, memTriple_sortTriples,
      memTriple_sortTriples, memTriple_setDiff, memTriple_setDiff]
    cases hA : memTriple t (stateFrom rdf_converter [] (revisions.take i)) <;>
      cases hB : memTriple t (setOfList rdf.triples) <;> simp [hA, hB]
  · intro r0 h0
    obtain ⟨rdf0, h1, h2, _⟩ := hidx 0 r0 h0
    refine ⟨rdf0, h1, ?_⟩
    show (iterGo rdf_converter [] revisions)[0]? = _
    rw [h2, List.take_zero]
    have hs : stateFrom rdf_converter [] ([] : List WikidataRawRevision) =
        [] := rfl
    rw [hs, setDiff_nil]
    have hd : setDiff ([] : List WikidataRdfTriple)
        (setOfList rdf0.triples) = [] := rfl
    rw [hd]
    rfl

/-- Witness for `diff_engine_correct` at the spec's concrete scenario (three
revisions of the sample entity, converted by `convOk`). -/
theorem diff_engine_correct_witness :
    (∀ r ∈ sampleRevs3, ∃ rdf, convOk r = Except.ok rdf) ∧
    ((iter_wikidated_revisions sampleRevs3 convOk).length =
      sampleRevs3.length ∧
    (∀ (i : Nat) (r : WikidataRawRevision), sampleRevs3[i]? = some r →
      ∃ rdf, convOk r = Except.ok rdf ∧
        ∃ adds dels,
          (iter_wikidated_revisions sampleRevs3 convOk)[i]? = some
            { entity := r.entity, revision := r.revision,
              triple_deletions := dels, triple_additions := adds } ∧
          adds.Perm (setDiff (setOfList rdf.triples)
            (stateAfter convOk (sampleRevs3.take i))) ∧
          adds.Pairwise (fun a b => tripleLe a b = true) ∧
          dels.Perm (setDiff (stateAfter convOk (sampleRevs3.take i))
            (setOfList rdf.triples)) ∧
          dels.Pairwise (fun a b => tripleLe a b = true) ∧
          stateAfter convOk (sampleRevs3.take (i + 1)) =
            setOfList rdf.triples ∧
          (∀ t, memTriple t (stateAfter convOk (sampleRevs3.take (i + 1))) =
            (memTriple t (stateAfter convOk (sampleRevs3.take i) ++ adds) &&
              !(memTriple t dels)))) ∧
    (∀ r0, sampleRevs3[0]? = some r0 →
      ∃ rdf0, convOk r0 = Except.ok rdf0 ∧
        (iter_wikidated_revisions sampleRevs3 convOk)[0]? = some
          { entity := r0.entity, revision := r0.revision,
            triple_deletions := [],
            triple_additions := sortTriples (setOfList rdf0.triples) })) :=
  ⟨fun _ _ => ⟨_, rfl⟩,
    diff_engine_correct convOk sampleRevs3 (fun _ _ => ⟨_, rfl⟩)⟩

/-- Claim C3: if the conversion of revision `k` fails, the diff engine skips
it without touching the active state, and its output equals the output on the
input with revision `k` removed entirely; the failure is not fatal. -/
theorem skip_on_failure (rdf_converter : RdfConverter)
    (revisions : List WikidataRawRevision) (k : Nat)
    (hk : k < revisions.length)
    (h : ∃ e, rdf_converter (revisions.get ⟨k, hk⟩) = Except.error e) :
    iter_wikidated_revisions revisions rdf_converter =
      iter_wikidated_revisions (revisions.eraseIdx k) rdf_converter :=
  iterGo_eraseIdx rdf_converter revisions k [] hk h

/-- Witness for `skip_on_failure`: the middle revision of a three-revision
sequence fails under `convFailSecond`. -/
theorem skip_on_failure_witness :
    1 < ([sampleRev 1, sampleRev 2, sampleRev 3].length) ∧
    (∃ e, convFailSecond ([sampleRev 1, sampleRev 2, sampleRev 3].get
      ⟨1, by decide⟩) = Except.error e) ∧
    iter_wikidated_revisions [sampleRev 1, sampleRev 2, sampleRev 3]
        convFailSecond =
      iter_wikidated_revisions
        ([sampleRev 1, sampleRev 2, sampleRev 3].eraseIdx 1) convFailSecond :=
  ⟨by decide, ⟨"conversion failed", rfl⟩,
    skip_on_failure convFailSecond [sampleRev 1, sampleRev 2, sampleRev 3] 1
      (by decide) ⟨"conversion failed", rfl⟩⟩

/-- Claim C2: two triples are equal -- and hash-equal -- exactly when their
subjects and predicates agree and either both object values start with the
reserved blank-node marker `"_:"` (object values ignored) or the object
values are equal; so triples differing only in a blank-node object with equal
subject and predicate compare equal and hash identically, while different
subject or predicate prevents equality. -/
theorem triple_equality_hash (a b : WikidataRdfTriple) :
    (tripleEq a b = true ∧ hashKey a = hashKey b) ↔
      (a.subject = b.subject ∧ a.predicate = b.predicate ∧
        ((isBlankObj a = true ∧ isBlankObj b = true) ∨
          a.object_ = b.object_)) := by
  constructor
  · rintro ⟨he, _⟩
    exact (tripleEq_iff a b).mp he
  · intro h
    refine ⟨(tripleEq_iff a b).mpr h, ?_⟩
    obtain ⟨hs, hp, ho⟩ := h
    unfold hashKey
    rcases ho with ⟨ha, hb⟩ | ho
    · rw [ha, hb, if_pos rfl, if_pos rfl, hs, hp]
    · rw [hs, hp, ho, isBlankObj_congr ho]

/-- `Nat.toDigitsCore` prepends its digits to the accumulator list. -/
theorem toDigitsCore_append (b : Nat) :
    ∀ (fuel n : Nat) (ds : List Char),
      Nat.toDigitsCore b fuel n ds = Nat.toDigitsCore b fuel n [] ++ ds
  | 0, _, _ => rfl
  | fuel + 1, n, ds => by
    unfold Nat.toDigitsCore
    by_cases h : n / b = 0
    · simp [h]
    · simp only [h, if_false]
      rw [toDigitsCore_append b fuel (n / b) (Nat.digitChar (n % b) :: ds),
        toDigitsCore_append b fuel (n / b) [Nat.digitChar (n % b)]]
      simp

/-- The decimal digit characters decode back to their values and are
digits. -/
theorem digitChar_toNat (m : Nat) (h : m < 10) :
    (Nat.digitChar m).toNat - 48 = m ∧ (Nat.digitChar m).isDigit = true := by
  interval_cases m <;> exact ⟨by decide, by decide⟩

/-- Decimal digit rendering of a natural number: the output is nonempty,
consists of digit characters, and folds back to the number. -/
theorem toDigitsCore_correct :
    ∀ (fuel n : Nat), n < fuel →
      (Nat.toDigitsCore 10 fuel n []).foldl
          (fun a c => a * 10 + (c.toNat - 48)) 0 = n ∧
        (∀ ch ∈ Nat.toDigitsCore 10 fuel n [], ch.isDigit = true) ∧
        Nat.toDigitsCore 10 fuel n [] ≠ []
  | 0, n, h => absurd h (Nat.not_lt_zero n)
  | fuel + 1, n, h => by
    unfold Nat.toDigitsCore
    by_cases h0 : n / 10 = 0
    · have hn : n < 10 := (Nat.div_eq_zero_iff (by omega)).mp h0
      have hd := digitChar_toNat (n % 10) (Nat.mod_lt n (by omega))
      simp only [h0, if_true, List.foldl_cons, List.foldl_nil]
      rw [Nat.mod_eq_of_lt hn] at hd ⊢
      refine ⟨by rw [hd.1]; omega, ?_, by simp⟩
      intro ch hch
      rw [List.mem_singleton] at hch
      rw [hch]
      exact hd.2
    · have hpos : 0 < n := by
        rcases Nat.eq_zero_or_pos n with rfl | hp
        · exact absurd rfl h0
        · exact hp
      have hfuel : n / 10 < fuel := by
        have h1 : n / 10 < n := Nat.div_lt_self hpos (by omega)
        omega
      obtain ⟨IH1, IH2, _⟩ := toDigitsCore_correct fuel (n / 10) hfuel
      have hd := digitChar_toNat (n % 10) (Nat.mod_lt n (by omega))
      simp only [h0, if_false]
      rw [toDigitsCore_append 10 fuel (n / 10) [Nat.digitChar (n % 10)]]
      refine ⟨?_, ?_, by simp⟩
      · rw [List.foldl_append, IH1, List.foldl_cons, List.foldl_nil, hd.1]
        omega
      · intro ch hch
        rcases List.mem_append.mp hch with hch | hch
        · exact IH2 ch hch
        · rw [List.mem_singleton] at hch
          rw [hch]
          exact hd.2

/-- `Nat.repr` renders exactly the decimal digits. -/
theorem repr_data (n : Nat) : (Nat.repr n).data = Nat.toDigits 10 n := rfl

/-- Helper: the file-name encoding of a page id parses back to the page
id. -/
theorem pageId_file_name_aux (n : Nat) :
    entity_page_id_from_file_name (entity_file_name_from_page_id n) =
      some n := by
  obtain ⟨hval, hdig, hne⟩ := toDigitsCore_correct (n + 1) n (Nat.lt_succ_self n)
  have hdata : (entity_file_name_from_page_id n).data =
      (Nat.repr n).data ++ ".jsonl".data := by
    rw [entity_file_name_from_page_id, String.data_append]
  have hlen : ".jsonl".data.length = 6 := by decide
  unfold entity_page_id_from_file_name
  rw [hdata, List.length_append, hlen, Nat.add_sub_cancel,
    List.take_left]
  show pyInt ⟨(Nat.repr n).data⟩ = some n
  rw [repr_data]
  unfold pyInt
  have hcond : (String.mk (Nat.toDigits 10 n)).data ≠ [] ∧
      (String.mk (Nat.toDigits 10 n)).data.all Char.isDigit := by
    constructor
    · exact hne
    · rw [List.all_eq_true]
      intro ch hch
      exact hdig ch hch
  rw [if_pos hcond]
  rw [Option.some_inj]
  exact hval

/-- Helper: the file-name encoding of page ids is injective. -/
theorem file_name_inj {a b : Nat}
    (h : entity_file_name_from_page_id a = entity_file_name_from_page_id b) :
    a = b := by
  have ha := pageId_file_name_aux a
  have hb := pageId_file_name_aux b
  rw [h, hb, Option.some_inj] at ha
  exact ha.symm

/-- Claim C10: converting a page id to an entity member file name and parsing
the page id back out of that file name returns the original page id. -/
theorem entity_file_name_round_trip (entity_page_id : Nat) :
    entity_page_id_from_file_name
      (entity_file_name_from_page_id entity_page_id) = some entity_page_id :=
  pageId_file_name_aux entity_page_id

/-- Every revision in a `groupByEntity` group has the group's key entity. -/
theorem groupByEntity_key :
    ∀ (revs : List WikidataRawRevision),
      ∀ g ∈ groupByEntity revs, ∀ r ∈ g.2, r.entity = g.1
  | [] => by simp [groupByEntity]
  | r0 :: rs => by
    have IH := groupByEntity_key rs
    intro g hg r hr
    unfold groupByEntity at hg
    cases hgs : groupByEntity rs with
    | nil =>
      rw [hgs] at hg
      rw [List.mem_singleton] at hg
      subst hg
      rw [List.mem_singleton] at hr
      subst hr
      rfl
    | cons p gs =>
      obtain ⟨k, gl⟩ := p
      rw [hgs] at hg
      dsimp only at hg
      by_cases he : r0.entity = k
      · rw [if_pos he] at hg
        rcases List.mem_cons.mp hg with hg | hg
        · subst hg
          rcases List.mem_cons.mp hr with hr | hr
          · subst hr; exact he
          · exact IH (k, gl) (hgs ▸ List.mem_cons_self (k, gl) gs) r hr
        · exact IH g (hgs ▸ List.mem_cons_of_mem (k, gl) hg) r hr
      · rw [if_neg he] at hg
        rcases List.mem_cons.mp hg with hg | hg
        · subst hg
          rw [List.mem_singleton] at hr
          subst hr
          rfl
        · exact IH g (hgs ▸ hg) r hr

/-- Every diff revision emitted by the diff-engine loop takes its entity and
revision metadata from some input revision. -/
theorem iterGo_entity_from_input (c : RdfConverter) :
    ∀ (rs : List WikidataRawRevision) (st : List WikidataRdfTriple),
      ∀ o ∈ iterGo c st rs, ∃ r ∈ rs, o.entity = r.entity
  | [], _ => by simp [iterGo]
  | r0 :: rest, st => by
    intro o ho
    unfold iterGo at ho
    cases hc : c r0 with
    | error e =>
      rw [hc] at ho
      obtain ⟨r, hr, he⟩ := iterGo_entity_from_input c rest st o ho
      exact ⟨r, List.mem_cons_of_mem r0 hr, he⟩
    | ok rdf =>
      rw [hc] at ho
      rcases List.mem_cons.mp ho with ho | ho
      · exact ⟨r0, List.mem_cons_self r0 rest, by rw [ho]⟩
      · obtain ⟨r, hr, he⟩ :=
          iterGo_entity_from_input c rest (setOfList rdf.triples) o ho
        exact ⟨r, List.mem_cons_of_mem r0 hr, he⟩

/-- Claim C4: an entity whose diff sequence is empty (for example because
every one of its revisions fails conversion) gets no archive member file at
all -- its file name is absent from the built archive -- and contributes no
yielded diff revision. -/
theorem no_output_for_empty_entity (revs : List WikidataRawRevision)
    (c : RdfConverter) (pid : Nat)
    (h : ∀ g ∈ groupByEntity revs, g.1.page_id = pid →
      iter_wikidated_revisions g.2 c = []) :
    (∀ m ∈ (buildArchive revs c).members,
      m.1 ≠ entity_file_name_from_page_id pid) ∧
    (∀ o ∈ buildYields revs c, o.entity.page_id ≠ pid) := by
  constructor
  · intro m hm heq
    obtain ⟨g, hg, hmg⟩ := List.mem_filterMap.mp hm
    unfold memberOfGroup at hmg
    cases hit : iter_wikidated_revisions g.2 c with
    | nil => rw [hit] at hmg; cases hmg
    | cons d ds =>
      rw [hit] at hmg
      rw [Option.some_inj] at hmg
      have hname : m.1 = entity_file_name_from_page_id g.1.page_id := by
        rw [← hmg]
      rw [heq] at hname
      have : g.1.page_id = pid := (file_name_inj hname.symm)
      have hempty := h g hg this
      rw [hempty] at hit
      cases hit
  · intro o ho heq
    obtain ⟨m, hm, hom⟩ := List.mem_flatMap.mp ho
    obtain ⟨g, hg, hmg⟩ := List.mem_filterMap.mp hm
    unfold memberOfGroup at hmg
    cases hit : iter_wikidated_revisions g.2 c with
    | nil => rw [hit] at hmg; cases hmg
    | cons d ds =>
      rw [hit] at hmg
      rw [Option.some_inj] at hmg
      have hds : m.2 = d :: ds := by rw [← hmg]
      rw [hds] at hom
      have ho2 : o ∈ iter_wikidated_revisions g.2 c := by
        rw [hit]; exact hom
      obtain ⟨r, hr, he⟩ := iterGo_entity_from_input c g.2 [] o ho2
      have hkey := groupByEntity_key revs g hg r hr
      have hpid : g.1.page_id = pid := by
        rw [← heq, he, hkey]
      have hempty := h g hg hpid
      rw [hempty] at hit
      cases hit

/-- Witness for `no_output_for_empty_entity`: a single-revision entity whose
conversion always fails, under `convFail`. -/
theorem no_output_for_empty_entity_witness :
    (∀ g ∈ groupByEntity [sampleRev 1], g.1.page_id = 42 →
      iter_wikidated_revisions g.2 convFail = []) ∧
    ((∀ m ∈ (buildArchive [sampleRev 1] convFail).members,
      m.1 ≠ entity_file_name_from_page_id 42) ∧
    (∀ o ∈ buildYields [sampleRev 1] convFail, o.entity.page_id ≠ 42)) :=
  ⟨by decide,
    no_output_for_empty_entity [sampleRev 1] convFail 42 (by decide)⟩

/-- Claim C5: when the final-named target archive already exists, `build` is
a no-op: it produces the empty sequence, performs no file-system operation,
and leaves the archive unchanged.  Consequently a second `build` call on the
same inputs (after a first call created the archive) returns the archive of
the first call unchanged -- the two calls' on-disk results are identical. -/
theorem build_idempotent (a : ArchiveModel) (revs : List WikidataRawRevision)
    (c : RdfConverter) :
    buildEntityStreams (some a) revs c = (some a, []) ∧
    buildTrace true revs c = [] ∧
    buildEntityStreams (buildEntityStreams none revs c).1 revs c =
      ((buildEntityStreams none revs c).1, []) ∧
    (buildEntityStreams (buildEntityStreams none revs c).1 revs c).1 =
      (buildEntityStreams none revs c).1 :=
  ⟨rfl, rfl, rfl, rfl⟩

/-- Member writes accumulate in the temporary archive, in order. -/
theorem applyOps_writes_tmp :
    ∀ (ms : List (String × List WikidatedRevision)) (fs : FsState),
      (applyOps fs (ms.map FsOp.writeMember)).tmp.getD [] =
        fs.tmp.getD [] ++ ms
  | [], fs => by simp [applyOps]
  | m :: ms, fs => by
    show (applyOps (applyOp fs (FsOp.writeMember m))
      (ms.map FsOp.writeMember)).tmp.getD [] = _
    rw [applyOps_writes_tmp ms (applyOp fs (FsOp.writeMember m))]
    simp [applyOp]

/-- Member writes never touch the final-named archive. -/
theorem applyOps_writes_fin :
    ∀ (ms : List (String × List WikidatedRevision)) (fs : FsState),
      (applyOps fs (ms.map FsOp.writeMember)).fin = fs.fin
  | [], _ => rfl
  | m :: ms, fs => by
    show (applyOps (applyOp fs (FsOp.writeMember m))
      (ms.map FsOp.writeMember)).fin = _
    rw [applyOps_writes_fin ms (applyOp fs (FsOp.writeMember m))]
    rfl

/-- Running the complete build trace installs exactly the built archive under
the final name and removes the temporary file. -/
theorem applyOps_full_trace (revs : List WikidataRawRevision)
    (c : RdfConverter) :
    applyOps initFs (buildTrace false revs c) =
      { tmp := none, fin := some (buildArchive revs c) } := by
  rw [buildTrace, if_neg (by simp)]
  rw [applyOps, List.foldl_append]
  show applyOp (applyOps initFs
    (((groupByEntity revs).filterMap (memberOfGroup c)).map
      FsOp.writeMember)) FsOp.renameTmpToFinal = _
  have htmp := applyOps_writes_tmp
    ((groupByEntity revs).filterMap (memberOfGroup c)) initFs
  rw [applyOp]
  rw [htmp]
  rfl

/-- Claim C6: a build against a non-existing target writes only member files
(all of them to the temporary path) until the single final rename; running
the complete operation trace installs the archive under the final name, while
running any proper prefix of the trace (any failure point before the commit)
leaves no final-named archive on disk, and every operation in such a prefix
is a temporary-member write. -/
theorem build_atomic_commit (revs : List WikidataRawRevision)
    (c : RdfConverter) (ops : List FsOp)
    (hpre : ops <+: buildTrace false revs c) :
    (ops = buildTrace false revs c →
      applyOps initFs ops =
        { tmp := none, fin := some (buildArchive revs c) }) ∧
    (ops.length < (buildTrace false revs c).length →
      (applyOps initFs ops).fin = none ∧
      ∀ op ∈ ops, ∃ m, op = FsOp.writeMember m) := by
  constructor
  · intro heq
    rw [heq]
    exact applyOps_full_trace revs c
  · intro hlt
    have hbt : buildTrace false revs c =
        ((groupByEntity revs).filterMap (memberOfGroup c)).map
          FsOp.writeMember ++ [FsOp.renameTmpToFinal] := by
      rw [buildTrace, if_neg (by simp)]
    have hle : ops.length ≤
        (((groupByEntity revs).filterMap (memberOfGroup c)).map
          FsOp.writeMember).length := by
      rw [hbt, List.length_append, List.length_singleton] at hlt
      omega
    have hops : ops = (((groupByEntity revs).filterMap
        (memberOfGroup c)).map FsOp.writeMember).take ops.length := by
      have h1 := List.prefix_iff_eq_take.mp hpre
      rw [hbt] at h1
      exact h1.trans (List.take_append_of_le_length hle)
    have hops2 : ops = (((groupByEntity revs).filterMap
        (memberOfGroup c)).take ops.length).map FsOp.writeMember := by
      rw [List.map_take]
      exact hops
    constructor
    · rw [hops2]
      exact applyOps_writes_fin _ initFs
    · intro op hop
      rw [hops2] at hop
      obtain ⟨m, _, hm⟩ := List.mem_map.mp hop
      exact ⟨m, hm.symm⟩

/-- Witness for `build_atomic_commit`: a one-write proper prefix of the build
trace of a single-revision partition under `convOk`. -/
theorem build_atomic_commit_witness :
    ((buildTrace false [sampleRev 1] convOk).take 1 <+:
      buildTrace false [sampleRev 1] convOk) ∧
    (((buildTrace false [sampleRev 1] convOk).take 1 =
        buildTrace false [sampleRev 1] convOk →
      applyOps initFs ((buildTrace false [sampleRev 1] convOk).take 1) =
        { tmp := none, fin := some (buildArchive [sampleRev 1] convOk) }) ∧
    (((buildTrace false [sampleRev 1] convOk).take 1).length <
        (buildTrace false [sampleRev 1] convOk).length →
      (applyOps initFs
        ((buildTrace false [sampleRev 1] convOk).take 1)).fin = none ∧
      ∀ op ∈ (buildTrace false [sampleRev 1] convOk).take 1,
        ∃ m, op = FsOp.writeMember m)) :=
  ⟨List.take_prefix 1 (buildTrace false [sampleRev 1] convOk),
    build_atomic_commit [sampleRev 1] convOk
      ((buildTrace false [sampleRev 1] convOk).take 1)
      (List.take_prefix 1 (buildTrace false [sampleRev 1] convOk))⟩

/-- The member names of the merged concatenation are the flattened per-input
name lists. -/
theorem merge_names_eq :
    ∀ parts : List ((Nat × Nat) × ArchiveModel),
      ((parts.map (·.2)).flatMap (fun a => a.members)).map Prod.fst =
        (parts.map (fun p => p.2.members.map Prod.fst)).flatten
  | [] => rfl
  | p :: ps => by
    simp only [List.map_cons, List.flatMap_cons, List.map_append,
      List.flatten_cons]
    rw [merge_names_eq ps]

/-- Claim C9: merging partition archives whose entity-id ranges are pairwise
disjoint (each archive's member files named by page ids inside its own range,
without internal duplicates) succeeds and yields an archive whose entity-key
set is the union of the inputs' key sets with no collision; whereas whenever
two distinct input archives share an entity key, the merge reports the fatal
integrity error instead of overwriting. -/
theorem merge_disjoint_integrity
    (parts : List ((Nat × Nat) × ArchiveModel)) :
    ((∀ p ∈ parts, ∀ m ∈ p.2.members, ∃ pid,
        m.1 = entity_file_name_from_page_id pid ∧
        p.1.1 ≤ pid ∧ pid ≤ p.1.2) →
      (∀ p ∈ parts, (p.2.members.map Prod.fst).Nodup) →
      parts.Pairwise (fun p q => p.1.2 < q.1.1 ∨ q.1.2 < p.1.1) →
      ∃ a, mergeEntityStreams (parts.map (·.2)) = Except.ok a ∧
        (a.members.map Prod.fst).Nodup ∧
        (∀ name, name ∈ a.members.map Prod.fst ↔
          ∃ p ∈ parts, name ∈ p.2.members.map Prod.fst)) ∧
    (∀ (i j : Nat) (hi : i < parts.length) (hj : j < parts.length)
        (name : String), i < j →
      name ∈ (parts.get ⟨i, hi⟩).2.members.map Prod.fst →
      name ∈ (parts.get ⟨j, hj⟩).2.members.map Prod.fst →
      ∃ e, mergeEntityStreams (parts.map (·.2)) = Except.error e) := by
  constructor
  · intro h1 h2 h3
    have hdisj : (parts.map (fun p => p.2.members.map Prod.fst)).Pairwise
        List.Disjoint := by
      rw [List.pairwise_map]
      refine h3.imp_of_mem ?_
      intro p q hp hq hrange name hnp hnq
      obtain ⟨mp, hmp, hmpn⟩ := List.mem_map.mp hnp
      obtain ⟨mq, hmq, hmqn⟩ := List.mem_map.mp hnq
      obtain ⟨pid1, hid1, hlo1, hhi1⟩ := h1 p hp mp hmp
      obtain ⟨pid2, hid2, hlo2, hhi2⟩ := h1 q hq mq hmq
      have hnn : entity_file_name_from_page_id pid1 =
          entity_file_name_from_page_id pid2 := by
        rw [← hid1, ← hid2, hmpn, hmqn]
      have hpid : pid1 = pid2 := file_name_inj hnn
      rcases hrange with hr | hr
      · omega
      · omega
    have hnodup : (((parts.map (·.2)).flatMap
        (fun a => a.members)).map Prod.fst).Nodup := by
      rw [merge_names_eq parts, List.nodup_flatten]
      refine ⟨?_, hdisj⟩
      intro l hl
      obtain ⟨p, hp, hpl⟩ := List.mem_map.mp hl
      rw [← hpl]
      exact h2 p hp
    refine ⟨⟨(parts.map (·.2)).flatMap (fun a => a.members)⟩, ?_, hnodup, ?_⟩
    · rw [mergeEntityStreams]
      rw [if_pos hnodup]
    · intro name
      rw [merge_names_eq parts, List.mem_flatten]
      constructor
      · rintro ⟨l, hl, hn⟩
        obtain ⟨p, hp, hpl⟩ := List.mem_map.mp hl
        exact ⟨p, hp, hpl ▸ hn⟩
      · rintro ⟨p, hp, hn⟩
        exact ⟨p.2.members.map Prod.fst, List.mem_map.mpr ⟨p, hp, rfl⟩, hn⟩
  · intro i j hi hj name hij hni hnj
    have hnotdup : ¬ (((parts.map (·.2)).flatMap
        (fun a => a.members)).map Prod.fst).Nodup := by
      rw [merge_names_eq parts, List.nodup_flatten]
      rintro ⟨-, hdisj⟩
      rw [List.pairwise_iff_get] at hdisj
      have hlen : (parts.map (fun p => p.2.members.map Prod.fst)).length =
          parts.length := List.length_map _ _
      have hd := hdisj ⟨i, by omega⟩ ⟨j, by omega⟩ (by exact hij)
      simp only [List.get_eq_getElem, List.getElem_map] at hd
      rw [List.get_eq_getElem] at hni hnj
      exact hd hni hnj
    rw [mergeEntityStreams]
    rw [if_neg hnotdup]
    exact ⟨_, rfl⟩

/-- Witness for `merge_disjoint_integrity`: the disjoint sample partitions
merge successfully; the overlapping sample partitions raise the integrity
error. -/
theorem merge_disjoint_integrity_witness :
    (∀ p ∈ samplePartsDisjoint, ∀ m ∈ p.2.members, ∃ pid,
      m.1 = entity_file_name_from_page_id pid ∧
      p.1.1 ≤ pid ∧ pid ≤ p.1.2) ∧
    (∀ p ∈ samplePartsDisjoint, (p.2.members.map Prod.fst).Nodup) ∧
    samplePartsDisjoint.Pairwise
      (fun p q => p.1.2 < q.1.1 ∨ q.1.2 < p.1.1) ∧
    (∃ a, mergeEntityStreams (samplePartsDisjoint.map (·.2)) =
        Except.ok a ∧
      (a.members.map Prod.fst).Nodup ∧
      (∀ name, name ∈ a.members.map Prod.fst ↔
        ∃ p ∈ samplePartsDisjoint, name ∈ p.2.members.map Prod.fst)) ∧
    (0 : Nat) < 1 ∧
    entity_file_name_from_page_id 5 ∈
      (samplePartsOverlap.get ⟨0, by decide⟩).2.members.map Prod.fst ∧
    entity_file_name_from_page_id 5 ∈
      (samplePartsOverlap.get ⟨1, by decide⟩).2.members.map Prod.fst ∧
    (∃ e, mergeEntityStreams (samplePartsOverlap.map (·.2)) =
      Except.error e) := by
  have h1 : ∀ p ∈ samplePartsDisjoint, ∀ m ∈ p.2.members, ∃ pid,
      m.1 = entity_file_name_from_page_id pid ∧
      p.1.1 ≤ pid ∧ pid ≤ p.1.2 := by
    intro p hp m hm
    rcases List.mem_cons.mp hp with h | hp2
    · subst h
      simp only [samplePartsDisjoint, sampleArchN,
        List.mem_singleton] at hm
      subst hm
      exact ⟨5, rfl, by decide, by decide⟩
    · rw [List.mem_singleton] at hp2
      subst hp2
      simp only [samplePartsDisjoint, sampleArchN,
        List.mem_singleton] at hm
      subst hm
      exact ⟨150, rfl, by decide, by decide⟩
  have h2 : ∀ p ∈ samplePartsDisjoint,
      (p.2.members.map Prod.fst).Nodup := by decide
  have h3 : samplePartsDisjoint.Pairwise
      (fun p q => p.1.2 < q.1.1 ∨ q.1.2 < p.1.1) := by decide
  refine ⟨h1, h2, h3, (merge_disjoint_integrity samplePartsDisjoint).1 h1 h2 h3,
    by decide, by decide, by decide, ?_⟩
  exact (merge_disjoint_integrity samplePartsOverlap).2 0 1 (by decide)
    (by decide) (entity_file_name_from_page_id 5) (by decide) (by decide)
    (by decide)

/-- `dropLast` commutes with `drop`. -/
theorem dropLast_drop_comm {α : Type} (n : Nat) (l : List α) :
    (l.drop n).dropLast = l.dropLast.drop n := by
  rw [List.dropLast_eq_take, List.dropLast_eq_take, List.length_drop]
  rcases Nat.lt_or_ge n l.length with h | h
  · rw [List.take_drop]
    have he : n + (l.length - n - 1) = l.length - 1 := by omega
    rw [he]
  · rw [List.drop_eq_nil_of_le h, List.drop_eq_nil_of_le (by simp; omega)]
    simp

/-- The registered prefix URLs are listed so that no later key is a prefix of
an earlier one (the source dict is sorted, which is what makes "longest
prefix is always at the end" on line 311 of `wikidata_rdf_converter.py`
correct). -/
theorem keyUrls_order :
    wikidataRdfKeyUrls.Pairwise
      (fun a b => ¬ (b.data.isPrefixOf a.data = true)) := by
  decide

/-- The last element of `triePrefixUrls s` is a registered prefix of `s` of
maximal length among all registered prefixes of `s`. -/
theorem triePrefixUrls_longest {s : List Char} {L : String}
    (h : (triePrefixUrls s).getLast? = some L) :
    L ∈ wikidataRdfKeyUrls ∧ L.data.isPrefixOf s = true ∧
    ∀ q ∈ wikidataRdfKeyUrls, q.data.isPrefixOf s = true →
      q.data.length ≤ L.data.length := by
  obtain ⟨ys, hys⟩ := List.getLast?_eq_some_iff.mp h
  have hLmem : L ∈ triePrefixUrls s := by
    rw [hys]
    exact List.mem_append.mpr (Or.inr (List.mem_singleton.mpr rfl))
  unfold triePrefixUrls at hLmem
  have hLk := List.mem_filter.mp hLmem
  refine ⟨hLk.1, hLk.2, ?_⟩
  intro q hq hqp
  have hqmem : q ∈ triePrefixUrls s := by
    unfold triePrefixUrls
    exact List.mem_filter.mpr ⟨hq, hqp⟩
  have hcomp := List.prefix_or_prefix_of_prefix
    (List.isPrefixOf_iff_prefix.mp hqp) (List.isPrefixOf_iff_prefix.mp hLk.2)
  rcases hcomp with hc | hc
  · exact hc.length_le
  · rw [hys] at hqmem
    rcases List.mem_append.mp hqmem with hqys | hqL
    · have hpw : (triePrefixUrls s).Pairwise
          (fun a b => ¬ (b.data.isPrefixOf a.data = true)) :=
        List.Pairwise.sublist (List.filter_sublist _) keyUrls_order
      rw [hys, List.pairwise_append] at hpw
      have hno := hpw.2.2 q hqys L (List.mem_singleton.mpr rfl)
      exact absurd (List.isPrefixOf_iff_prefix.mpr hc) hno
    · rw [List.mem_singleton] at hqL
      rw [hqL]

/-- Counterexample to claim C7 as stated: on the empty string the operation
raises `IndexError` (modelled `none`) instead of returning the non-delimited
input unchanged, and on a delimited URI matching no registered prefix it
returns the original input still wrapped in angle brackets, not the
un-delimited form. -/
theorem prefix_uri_claim_counterexample :
    prefix_ntriples_uri "" = none ∧
    prefix_ntriples_uri "<http://example.org/x>" =
      some "<http://example.org/x>" ∧
    "<http://example.org/x>" ≠ "http://example.org/x" := by
  refine ⟨by decide, by decide, by decide⟩

/-- Claim C7 (amended): for every nonempty input string, the operation
returns the input unchanged if it does not start with the URI delimiter;
otherwise it strips the delimiters and (a) if no registered ontology-URI
prefix matches the contained URI it returns the original delimited input
unchanged, and (b) if some registered prefix matches, it picks a registered
prefix of maximal length among the matching ones and returns
`shortcode:remainder` for that prefix's shortcode. -/
theorem prefix_uri_amended (uri : String) (h : uri.data ≠ []) :
    (uri.data.head? ≠ some '<' → prefix_ntriples_uri uri = some uri) ∧
    (uri.data.head? = some '<' →
      ((∀ p ∈ wikidataRdfKeyUrls,
          ¬ (p.data.isPrefixOf ((uri.data.drop 1).dropLast) = true)) →
        prefix_ntriples_uri uri = some uri) ∧
      ((∃ p ∈ wikidataRdfKeyUrls,
          p.data.isPrefixOf ((uri.data.drop 1).dropLast) = true) →
        ∃ L rest, L ∈ wikidataRdfKeyUrls ∧
          (uri.data.drop 1).dropLast = L.data ++ rest ∧
          (∀ q ∈ wikidataRdfKeyUrls,
            q.data.isPrefixOf ((uri.data.drop 1).dropLast) = true →
            q.data.length ≤ L.data.length) ∧
          prefix_ntriples_uri uri =
            some (shortcodeOf L ++ ":" ++ ⟨rest⟩))) := by
  obtain ⟨l⟩ := uri
  cases l with
  | nil => exact absurd rfl h
  | cons c tail =>
    by_cases hc : c = '<'
    · subst hc
      constructor
      · intro hne
        exact absurd rfl hne
      · intro _
        have hred : prefix_ntriples_uri ⟨'<' :: tail⟩ =
            match (triePrefixUrls (tail.dropLast)).getLast? with
            | some key_url =>
              some (shortcodeOf key_url ++ ":" ++
                ⟨(tail.drop key_url.data.length).dropLast⟩)
            | none => some ⟨'<' :: tail⟩ := by
          show (if ('<' : Char) ≠ '<' then some (String.mk ('<' :: tail))
            else match (triePrefixUrls
                (((String.mk ('<' :: tail)).data.drop 1).dropLast)).getLast? with
              | some key_url =>
                some (shortcodeOf key_url ++ ":" ++
                  ⟨((String.mk ('<' :: tail)).data.drop
                    (key_url.data.length + 1)).dropLast⟩)
              | none => some (String.mk ('<' :: tail))) = _
          rw [if_neg (by simp)]
          rfl
        constructor
        · intro hnone
          have hfil : triePrefixUrls (tail.dropLast) = [] := by
            unfold triePrefixUrls
            rw [List.filter_eq_nil_iff]
            intro p hp
            exact hnone p hp
          rw [hred, hfil]
          rfl
        · rintro ⟨p, hp, hpref⟩
          cases hL : (triePrefixUrls (tail.dropLast)).getLast? with
          | none =>
            rw [List.getLast?_eq_none_iff] at hL
            have : p ∈ triePrefixUrls (tail.dropLast) := by
              unfold triePrefixUrls
              exact List.mem_filter.mpr ⟨hp, hpref⟩
            rw [hL] at this
            cases this
          | some L =>
            obtain ⟨hLk, hLp, hLmax⟩ := triePrefixUrls_longest hL
            obtain ⟨rest, hrest⟩ :=
              (List.isPrefixOf_iff_prefix.mp hLp : L.data <+: tail.dropLast)
            refine ⟨L, rest, hLk, ?_, ?_, ?_⟩
            · show tail.dropLast = L.data ++ rest
              exact hrest.symm
            · intro q hq hqp
              exact hLmax q hq hqp
            · rw [hred, hL]
              have hr : (tail.drop L.data.length).dropLast = rest := by
                rw [dropLast_drop_comm, ← hrest, List.drop_left]
              show some (shortcodeOf L ++ ":" ++
                (⟨(tail.drop L.data.length).dropLast⟩ : String)) = _
              rw [hr]
    · constructor
      · intro _
        have hred : prefix_ntriples_uri ⟨c :: tail⟩ = some ⟨c :: tail⟩ := by
          show (if c ≠ '<' then some (String.mk (c :: tail))
            else match (triePrefixUrls
                (((String.mk (c :: tail)).data.drop 1).dropLast)).getLast? with
              | some key_url =>
                some (shortcodeOf key_url ++ ":" ++
                  ⟨((String.mk (c :: tail)).data.drop
                    (key_url.data.length + 1)).dropLast⟩)
              | none => some (String.mk (c :: tail))) = _
          rw [if_pos hc]
        exact hred
      · intro hhead
        rw [List.head?_cons, Option.some_inj] at hhead
        exact absurd hhead hc

/-- Witness for `prefix_uri_amended` at a concrete prefixable URI. -/
theorem prefix_uri_amended_witness :
    ("<http://www.wikidata.org/prop/direct/P31>" : String).data ≠ [] ∧
    ((("<http://www.wikidata.org/prop/direct/P31>" : String).data.head? ≠
        some '<' →
      prefix_ntriples_uri "<http://www.wikidata.org/prop/direct/P31>" =
        some "<http://www.wikidata.org/prop/direct/P31>") ∧
    ((("<http://www.wikidata.org/prop/direct/P31>" : String).data.head? =
        some '<' →
      ((∀ p ∈ wikidataRdfKeyUrls, ¬ (p.data.isPrefixOf
          ((("<http://www.wikidata.org/prop/direct/P31>" : String).data.drop
            1).dropLast) = true)) →
        prefix_ntriples_uri "<http://www.wikidata.org/prop/direct/P31>" =
          some "<http://www.wikidata.org/prop/direct/P31>") ∧
      ((∃ p ∈ wikidataRdfKeyUrls, p.data.isPrefixOf
          ((("<http://www.wikidata.org/prop/direct/P31>" : String).data.drop
            1).dropLast) = true) →
        ∃ L rest, L ∈ wikidataRdfKeyUrls ∧
          ((("<http://www.wikidata.org/prop/direct/P31>" : String).data.drop
            1).dropLast) = L.data ++ rest ∧
          (∀ q ∈ wikidataRdfKeyUrls, q.data.isPrefixOf
            ((("<http://www.wikidata.org/prop/direct/P31>" : String).data.drop
              1).dropLast) = true →
            q.data.length ≤ L.data.length) ∧
          prefix_ntriples_uri "<http://www.wikidata.org/prop/direct/P31>" =
            some (shortcodeOf L ++ ":" ++ ⟨rest⟩))))) :=
  ⟨by decide,
    prefix_uri_amended "<http://www.wikidata.org/prop/direct/P31>"
      (by decide)⟩

/-- Counterexample to claim C8 as stated: on the empty string `uri[0]` raises
`IndexError`, so the operation is not total on every string. -/
theorem prefix_uri_total_counterexample :
    prefix_ntriples_uri "" = none := by
  decide

/-- Claim C8 (amended): on every nonempty input string the prefix operation
terminates normally and deterministically returns some string. -/
theorem prefix_uri_total_nonempty (uri : String) (h : uri.data ≠ []) :
    ∃ out, prefix_ntriples_uri uri = some out := by
  obtain ⟨l⟩ := uri
  cases l with
  | nil => exact absurd rfl h
  | cons c tail =>
    show ∃ out, (if c ≠ '<' then some (String.mk (c :: tail))
      else match (triePrefixUrls
          (((String.mk (c :: tail)).data.drop 1).dropLast)).getLast? with
        | some key_url =>
          some (shortcodeOf key_url ++ ":" ++
            ⟨((String.mk (c :: tail)).data.drop
              (key_url.data.length + 1)).dropLast⟩)
        | none => some (String.mk (c :: tail))) = some out
    by_cases hc : c ≠ '<'
    · rw [if_pos hc]
      exact ⟨_, rfl⟩
    · rw [if_neg hc]
      cases hL : (triePrefixUrls
          (((String.mk (c :: tail)).data.drop 1).dropLast)).getLast? with
      | none => exact ⟨_, rfl⟩
      | some L => exact ⟨_, rfl⟩

/-- Witness for `prefix_uri_total_nonempty` at a concrete literal input. -/
theorem prefix_uri_total_nonempty_witness :
    ("\"hello\"" : String).data ≠ [] ∧
    ∃ out, prefix_ntriples_uri "\"hello\"" = some out :=
  ⟨by decide, prefix_uri_total_nonempty "\"hello\"" (by decide)⟩
